import Mathlib

/-!
Shallow embedding of the payment due-date and status engine of
`src/utils/dateUtils.ts` (donor-hub-lite).

Modelling conventions:
* Calendar dates are `Date` records (year / month 1-12 / day).  Payment-date
  strings (`YYYY-MM-DD` per `src/types/index.ts`) denote their calendar date,
  so `parseISO` is the identity of this model and JavaScript `Date`
  timestamps are compared at day granularity through the day-number function
  `toDays` (a proleptic-Gregorian day count, the granularity at which the
  engine observes time).
* `date-fns` `addMonths` clamps the day to the length of the target month
  (it never rolls into the following month); `addYears n` is
  `addMonths (12*n)`, as in the date-fns source.
* `payment_frequency` and `status` are `String`s, as in the JavaScript
  runtime, so the `default` branches of the `switch` statements are
  reachable exactly as in the source.
* Monetary amounts are `ℚ` (JavaScript numbers; every constant the claims
  touch is exact).
* The ambient wall clock (`new Date()` in `getPaymentStatus` and the default
  month of `getMonthlyCollected`) is an explicit `today` argument.
-/

namespace DonorHub

/-- Calendar date: year, month (1-12), day (1-based). -/
structure Date where
  year : Int
  month : Nat
  day : Nat
deriving DecidableEq, Repr

/-- Gregorian leap-year rule, as implemented by the JavaScript `Date`
normalization that `date-fns` relies on. -/
def isLeapYear (y : Int) : Prop :=
  (y % 4 = 0 ∧ ¬ (y % 100 = 0)) ∨ y % 400 = 0

instance (y : Int) : Decidable (isLeapYear y) := by
  unfold isLeapYear; infer_instance

/-- Number of days of month `m` of year `y`. -/
def daysInMonth (y : Int) (m : Nat) : Nat :=
  if m = 2 then (if isLeapYear y then 29 else 28)
  else if m = 4 ∨ m = 6 ∨ m = 9 ∨ m = 11 then 30
  else 31

/-- A well-formed calendar date. -/
def Date.Valid (d : Date) : Prop :=
  1 ≤ d.month ∧ d.month ≤ 12 ∧ 1 ≤ d.day ∧ d.day ≤ daysInMonth d.year d.month

instance (d : Date) : Decidable d.Valid := by
  unfold Date.Valid; infer_instance

/-- Proleptic-Gregorian day number of a date (shifted civil-from-days
formula; March is month 0 of the internal year).  Only differences of
`toDays` are observable, matching `getTime()` arithmetic and
`differenceInDays` at day granularity. -/
def toDays (dt : Date) : Int :=
  let m : Int := dt.month
  let y : Int := if m ≤ 2 then dt.year - 1 else dt.year
  let mp : Int := (m + 9) % 12
  365 * y + y / 4 - y / 100 + y / 400 + (153 * mp + 2) / 5 + (dt.day : Int) - 1

/-- date-fns `addMonths`: move `n` months forward, clamping the day to the
length of the target month. -/
def addMonths (d : Date) (n : Nat) : Date :=
  let total : Int := d.year * 12 + ((d.month : Int) - 1) + (n : Int)
  let y : Int := total / 12
  let m : Nat := (total % 12).toNat + 1
  ⟨y, m, min d.day (daysInMonth y m)⟩

/-- date-fns `addYears`: defined as `addMonths` of `12 * n` months, exactly
as in the date-fns implementation. -/
def addYears (d : Date) (n : Nat) : Date :=
  addMonths d (12 * n)

/-- date-fns `differenceInDays` for day-granularity instants: signed number
of days from `b` to `a`. -/
def differenceInDays (a b : Date) : Int :=
  toDays a - toDays b

/-- date-fns `isAfter` at day granularity. -/
def isAfter (a b : Date) : Bool :=
  decide (toDays b < toDays a)

/-- date-fns `isBefore` at day granularity. -/
def isBefore (a b : Date) : Bool :=
  decide (toDays a < toDays b)

/-- Member of `src/types/index.ts`. -/
structure Member where
  id : String
  full_name : String
  phone_number : String
  alt_phone_number : Option String
  email : String
  address : Option String
  location : Option String
  payment_amount : ℚ
  payment_frequency : String
  payment_start_date : Date
  payment_method : String
  preferred_contact : String
  active : Bool
  created_at : String
deriving DecidableEq, Repr

/-- Payment of `src/types/index.ts`. -/
structure Payment where
  id : String
  member_id : String
  amount : ℚ
  payment_date : Date
  payment_method : String
  status : String
  notes : Option String
deriving DecidableEq, Repr

/-- Result type of `getPaymentStatus`. -/
inductive PayStatus where
  | current
  | due_soon
  | overdue
deriving DecidableEq, Repr, BEq

/-- Function `getNextDueDate` of `src/utils/dateUtils.ts`. -/
def getNextDueDate (member : Member) (lastPaymentDate : Option Date) : Date :=
  let startDate := match lastPaymentDate with
    | some d => d
    | none => member.payment_start_date
  if member.payment_frequency = "monthly" then addMonths startDate 1
  else if member.payment_frequency = "three_months" then addMonths startDate 3
  else if member.payment_frequency = "six_months" then addMonths startDate 6
  else if member.payment_frequency = "yearly" then addYears startDate 1
  else addMonths startDate 1

/-- Descending-by-date comparator of `getLastPaymentDate`
(`(a, b) => new Date(b.payment_date).getTime() - new Date(a.payment_date).getTime()`):
`a` may precede `b` iff the date of `a` is no older than the date of `b`. -/
def laterFirst (a b : Payment) : Bool :=
  decide (toDays b.payment_date ≤ toDays a.payment_date)

/-- Function `getLastPaymentDate` of `src/utils/dateUtils.ts`. -/
def getLastPaymentDate (payments : List Payment) : Option Date :=
  if payments.length = 0 then none
  else
    let sortedPayments :=
      (payments.filter (fun p => p.status == "paid")).mergeSort laterFirst
    sortedPayments.head?.map (fun p => p.payment_date)

/-- State-passing rendering of `getLastPaymentDate`, tracking the caller's
`payments` array across the call: `Array.prototype.filter` allocates a fresh
array (ECMA-262), so the in-place `.sort` mutates only that copy and the
input array comes back unchanged, in its original order. -/
def getLastPaymentDateMut (payments : List Payment) :
    Option Date × List Payment :=
  if payments.length = 0 then (none, payments)
  else
    let copy := payments.filter (fun p => p.status == "paid")
    let sorted := copy.mergeSort laterFirst
    (sorted.head?.map (fun p => p.payment_date), payments)

/-- Function `getPaymentStatus` of `src/utils/dateUtils.ts`; `today` is the ambient
`new Date()` and `reminderDays` defaults to 3 at call sites. -/
def getPaymentStatus (member : Member) (payments : List Payment)
    (today : Date) (reminderDays : Int) : PayStatus :=
  let lastPayment := getLastPaymentDate payments
  let nextDue := getNextDueDate member lastPayment
  let daysDiff := differenceInDays nextDue today
  if daysDiff < 0 then .overdue
  else if daysDiff ≤ reminderDays then .due_soon
  else .current

/-- Function `isDue` of `src/utils/dateUtils.ts`. -/
def isDue (member : Member) (payments : List Payment)
    (today : Date) (reminderDays : Int) : Bool :=
  let status := getPaymentStatus member payments today reminderDays
  status == PayStatus.due_soon || status == PayStatus.overdue

/-- Function `getMonthlyExpectedIncome` of `src/utils/dateUtils.ts`. -/
def getMonthlyExpectedIncome (members : List Member) : ℚ :=
  (members.filter (fun m => m.active)).foldl
    (fun total member =>
      if member.payment_frequency = "monthly" then
        total + member.payment_amount
      else if member.payment_frequency = "three_months" then
        total + member.payment_amount / 3
      else if member.payment_frequency = "six_months" then
        total + member.payment_amount / 6
      else if member.payment_frequency = "yearly" then
        total + member.payment_amount / 12
      else total)
    0

/-- First day of the month of `t` (`new Date(y, m, 1)`). -/
def startOfMonth (t : Date) : Date :=
  ⟨t.year, t.month, 1⟩

/-- Last day of the month of `t` (`new Date(y, m + 1, 0)`). -/
def endOfMonth (t : Date) : Date :=
  ⟨t.year, t.month, daysInMonth t.year t.month⟩

/-- Filter test of `getMonthlyCollected`: paid, and strictly between the
first and last day of the target month. -/
def collectedInMonth (p : Payment) (targetMonth : Date) : Bool :=
  p.status == "paid" &&
    isAfter p.payment_date (startOfMonth targetMonth) &&
    isBefore p.payment_date (endOfMonth targetMonth)

/-- Function `getMonthlyCollected` of `src/utils/dateUtils.ts`; `targetMonth` is the
`month` argument (the ambient `new Date()` when absent). -/
def getMonthlyCollected (payments : List Payment) (targetMonth : Date) : ℚ :=
  (payments.filter (fun p => collectedInMonth p targetMonth)).foldl
    (fun total payment => total + payment.amount) 0

/-! ### Sample data used by witnesses -/

/-- Sample active member, 600 yearly, anchored Jan 31. -/
def mYearly600 : Member :=
  ⟨"m-y", "Alma Y", "0911", none, "y@example.org", none, none, 600,
   "yearly", ⟨2024, 1, 31⟩, "bank", "email", true, "2024-01-01"⟩

/-- Sample active member, 1200 monthly, anchored Jan 31. -/
def mMonthly1200 : Member :=
  ⟨"m-m", "Beka M", "0912", some "0913", "m@example.org", some "Addis", none,
   1200, "monthly", ⟨2024, 1, 31⟩, "cash", "sms", true, "2024-01-01"⟩

/-- Sample inactive member, 900 monthly. -/
def mInactive : Member :=
  ⟨"m-i", "Chaltu I", "0914", none, "i@example.org", none, none, 900,
   "monthly", ⟨2024, 2, 10⟩, "cash", "email", false, "2024-01-02"⟩

/-- Sample member whose frequency string is not one of the four mapped
values, exercising the `default` branch of the `switch`. -/
def mUnknownFreq : Member :=
  ⟨"m-u", "Dawit U", "0915", none, "u@example.org", none, none, 500,
   "weekly", ⟨2024, 5, 10⟩, "branch", "both", true, "2024-01-03"⟩

/-- Sample paid payment dated 2024-01-10. -/
def pPaidJan : Payment := ⟨"p1", "m-m", 100, ⟨2024, 1, 10⟩, "cash", "paid", none⟩

/-- Sample paid payment dated 2024-03-05. -/
def pPaidMar : Payment := ⟨"p2", "m-m", 150, ⟨2024, 3, 5⟩, "bank", "paid", none⟩

/-- Sample unpaid payment dated 2024-04-01 (later than every paid one). -/
def pUnpaidApr : Payment := ⟨"p3", "m-m", 200, ⟨2024, 4, 1⟩, "cash", "unpaid", none⟩

/-- Sample paid payment dated 2024-02-20 (the month before March). -/
def pPaidFeb : Payment := ⟨"p4", "m-m", 120, ⟨2024, 2, 20⟩, "bank", "paid", none⟩

/-- Frequency-to-monthly conversion applied by `getMonthlyExpectedIncome`
to a single member: amount, amount/3, amount/6, amount/12, or 0 for an
unmapped frequency. -/
def monthlyEquivalent (m : Member) : ℚ :=
  if m.payment_frequency = "monthly" then m.payment_amount
  else if m.payment_frequency = "three_months" then m.payment_amount / 3
  else if m.payment_frequency = "six_months" then m.payment_amount / 6
  else if m.payment_frequency = "yearly" then m.payment_amount / 12
  else 0

/-- Per-member contribution in the words of the spec: the monthly
equivalent for an active member, zero for an inactive one. -/
def specMonthlyContribution (m : Member) : ℚ :=
  if m.active then monthlyEquivalent m else 0

/-- The month immediately before the month of `t` (as the first day of that
month). -/
def prevMonthOf (t : Date) : Date :=
  if t.month = 1 then ⟨t.year - 1, 12, 1⟩ else ⟨t.year, t.month - 1, 1⟩

/-- The month immediately after the month of `t` (as the first day of that
month). -/
def nextMonthOf (t : Date) : Date :=
  if t.month = 12 then ⟨t.year + 1, 1, 1⟩ else ⟨t.year, t.month + 1, 1⟩

/-- Predicate: `d` falls in the calendar month of `t`. -/
def inMonth (d t : Date) : Prop :=
  d.year = t.year ∧ d.month = t.month

/-! ### C2: totality and frequency cases of getNextDueDate -/

/-- C2: `getNextDueDate` always returns a date (it is a total function into
`Date`); the anchor is the last paid date when present, else the member's
start date, and each frequency maps to its interval — monthly +1 month,
three_months +3, six_months +6, yearly +1 year — with every unmapped
frequency string defaulting to +1 month. -/
theorem getNextDueDate_total_cases (member : Member) (lpd : Option Date) :
    (member.payment_frequency = "monthly" →
      getNextDueDate member lpd = addMonths (lpd.getD member.payment_start_date) 1) ∧
    (member.payment_frequency = "three_months" →
      getNextDueDate member lpd = addMonths (lpd.getD member.payment_start_date) 3) ∧
    (member.payment_frequency = "six_months" →
      getNextDueDate member lpd = addMonths (lpd.getD member.payment_start_date) 6) ∧
    (member.payment_frequency = "yearly" →
      getNextDueDate member lpd = addYears (lpd.getD member.payment_start_date) 1) ∧
    (member.payment_frequency ∉
        (["monthly", "three_months", "six_months", "yearly"] : List String) →
      getNextDueDate member lpd = addMonths (lpd.getD member.payment_start_date) 1) := by
  have hanchor :
      (match lpd with
        | some d => d
        | none => member.payment_start_date) = lpd.getD member.payment_start_date := by
    cases lpd <;> rfl
  refine ⟨?_, ?_, ?_, ?_, ?_⟩ <;> intro h
  · simp [getNextDueDate, h, hanchor]
  · simp [getNextDueDate, h, hanchor]
  · simp [getNextDueDate, h, hanchor]
  · simp [getNextDueDate, h, hanchor]
  · simp only [List.mem_cons, List.mem_singleton, not_or] at h
    obtain ⟨h1, h2, h3, h4, -⟩ := h
    simp [getNextDueDate, h1, h2, h3, h4, hanchor]

/-- Witness for C2: the unmapped frequency string "weekly" falls through to
+1 month. -/
theorem getNextDueDate_total_cases_witness :
    getNextDueDate mUnknownFreq (some ⟨2024, 5, 10⟩)
      = addMonths ⟨2024, 5, 10⟩ 1 :=
  (getNextDueDate_total_cases mUnknownFreq (some ⟨2024, 5, 10⟩)).2.2.2.2
    (by decide)

/-! ### C10: with a supplied last-paid date, only the frequency matters -/

/-- C10: when a last-paid date is supplied, `getNextDueDate` reads no member
field other than `payment_frequency`: two members with equal frequencies
and the same supplied date get equal results. -/
theorem getNextDueDate_depends_only_on_frequency (m1 m2 : Member) (d : Date)
    (h : m1.payment_frequency = m2.payment_frequency) :
    getNextDueDate m1 (some d) = getNextDueDate m2 (some d) := by
  simp [getNextDueDate, h]

/-- Witness for C10: two members that differ in every field except the
frequency produce the same next due date. -/
theorem getNextDueDate_depends_only_on_frequency_witness :
    getNextDueDate mMonthly1200 (some ⟨2024, 6, 1⟩)
      = getNextDueDate mInactive (some ⟨2024, 6, 1⟩) :=
  getNextDueDate_depends_only_on_frequency mMonthly1200 mInactive
    ⟨2024, 6, 1⟩ rfl

/-! ### C8: isDue agrees with the classification -/

/-- C8: `isDue` returns `true` exactly when `getPaymentStatus` on the same
arguments classifies the member as due soon or overdue, and `false` exactly
when it classifies the member as current. -/
theorem isDue_iff_status (member : Member) (payments : List Payment)
    (today : Date) (w : Int) :
    (isDue member payments today w = true ↔
      (getPaymentStatus member payments today w = PayStatus.due_soon ∨
       getPaymentStatus member payments today w = PayStatus.overdue)) ∧
    (isDue member payments today w = false ↔
      getPaymentStatus member payments today w = PayStatus.current) := by
  unfold isDue
  cases getPaymentStatus member payments today w <;> refine ⟨?_, ?_⟩ <;> decide

/-! ### C7: determinism and absence of input mutation -/

/-- C7: every engine operation is deterministic given its inputs and a
frozen clock (`today` / `targetMonth`), and the state-passing rendering of
`getLastPaymentDate` returns the caller's payments list unchanged, in its
original order, alongside the same value the pure function computes. -/
theorem engine_deterministic (member : Member) (members : List Member)
    (payments : List Payment) (today target : Date) (w : Int)
    (lpd : Option Date) :
    getNextDueDate member lpd = getNextDueDate member lpd ∧
    getLastPaymentDate payments = getLastPaymentDate payments ∧
    getPaymentStatus member payments today w
      = getPaymentStatus member payments today w ∧
    isDue member payments today w = isDue member payments today w ∧
    getMonthlyExpectedIncome members = getMonthlyExpectedIncome members ∧
    getMonthlyCollected payments target = getMonthlyCollected payments target ∧
    getLastPaymentDateMut payments = (getLastPaymentDate payments, payments) := by
  refine ⟨rfl, rfl, rfl, rfl, rfl, rfl, ?_⟩
  unfold getLastPaymentDateMut getLastPaymentDate
  by_cases h : payments.length = 0 <;> simp [h]

/-! ### C5: monthly expected income -/

/-- Folding `total + f x` over a list sums `f` over the list. -/
theorem foldl_add_eq {α : Type} (f : α → ℚ) (l : List α) (a : ℚ) :
    l.foldl (fun t x => t + f x) a = a + (l.map f).sum := by
  induction l generalizing a with
  | nil => simp
  | cons x xs ih => simp [ih]; ring

/-- The step function of `getMonthlyExpectedIncome` adds the monthly
equivalent of the member to the accumulator. -/
theorem expected_step_eq :
    (fun (total : ℚ) (member : Member) =>
      if member.payment_frequency = "monthly" then
        total + member.payment_amount
      else if member.payment_frequency = "three_months" then
        total + member.payment_amount / 3
      else if member.payment_frequency = "six_months" then
        total + member.payment_amount / 6
      else if member.payment_frequency = "yearly" then
        total + member.payment_amount / 12
      else total)
    = fun total member => total + monthlyEquivalent member := by
  funext t m
  simp only [monthlyEquivalent]
  split_ifs <;> ring

/-- Summing monthly equivalents over the active filter equals summing the
spec's per-member contribution over the whole list. -/
theorem sum_map_filter_active (l : List Member) :
    ((l.filter (fun m => m.active)).map monthlyEquivalent).sum
      = (l.map specMonthlyContribution).sum := by
  induction l with
  | nil => rfl
  | cons m ms ih =>
    by_cases h : m.active <;>
      simp [List.filter_cons, h, specMonthlyContribution, ih]

/-- A member with positive amount has a non-negative monthly equivalent. -/
theorem monthlyEquivalent_nonneg (m : Member) (h : 0 < m.payment_amount) :
    0 ≤ monthlyEquivalent m := by
  unfold monthlyEquivalent
  split_ifs <;> positivity

/-- C5: `getMonthlyExpectedIncome` is the sum over all members of the
spec's per-member contribution (monthly equivalent when active, zero when
inactive; zero for unmapped frequencies), and is non-negative whenever
every amount is positive. -/
theorem getMonthlyExpectedIncome_spec (members : List Member) :
    getMonthlyExpectedIncome members
      = (members.map specMonthlyContribution).sum ∧
    ((∀ m ∈ members, 0 < m.payment_amount) →
      0 ≤ getMonthlyExpectedIncome members) := by
  have heq : getMonthlyExpectedIncome members
      = (members.map specMonthlyContribution).sum := by
    unfold getMonthlyExpectedIncome
    rw [expected_step_eq, foldl_add_eq, zero_add, sum_map_filter_active]
  refine ⟨heq, fun hpos => ?_⟩
  rw [heq]
  apply List.sum_nonneg
  intro x hx
  simp only [List.mem_map] at hx
  obtain ⟨m, hm, rfl⟩ := hx
  unfold specMonthlyContribution
  split_ifs
  · exact monthlyEquivalent_nonneg m (hpos m hm)
  · exact le_refl 0

/-- Witness for C5: the spec's worked example — 600 yearly plus 1200
monthly gives 1250, an inactive member contributes nothing, and the total
is non-negative. -/
theorem getMonthlyExpectedIncome_spec_witness :
    (∀ m ∈ [mYearly600, mMonthly1200, mInactive], 0 < m.payment_amount) ∧
    getMonthlyExpectedIncome [mYearly600, mMonthly1200, mInactive] = 1250 ∧
    0 ≤ getMonthlyExpectedIncome [mYearly600, mMonthly1200, mInactive] := by
  have h := getMonthlyExpectedIncome_spec [mYearly600, mMonthly1200, mInactive]
  have hpos : ∀ m ∈ [mYearly600, mMonthly1200, mInactive], 0 < m.payment_amount := by
    intro m hm
    simp only [List.mem_cons, List.not_mem_nil, or_false] at hm
    rcases hm with rfl | rfl | rfl <;> norm_num [mYearly600, mMonthly1200, mInactive]
  have hval : getMonthlyExpectedIncome [mYearly600, mMonthly1200, mInactive] = 1250 := by
    rw [h.1]
    simp [specMonthlyContribution, monthlyEquivalent,
      mYearly600, mMonthly1200, mInactive]
    norm_num
  exact ⟨hpos, hval, h.2 hpos⟩

/-! ### Arithmetic of addMonths -/

/-- Structure of `addMonths`: the target year/month advance by exactly `n`
months (in the linear count `year * 12 + month`), the month stays in 1..12,
and the day is the anchor's day clamped to the length of the target
month. -/
theorem addMonths_spec (d : Date) (n : Nat) (h1 : 1 ≤ d.month)
    (h2 : d.month ≤ 12) :
    (addMonths d n).year * 12 + ((addMonths d n).month : Int)
        = d.year * 12 + (d.month : Int) + (n : Int) ∧
    1 ≤ (addMonths d n).month ∧ (addMonths d n).month ≤ 12 ∧
    (addMonths d n).day
      = min d.day (daysInMonth (addMonths d n).year (addMonths d n).month) := by
  have hy : (addMonths d n).year
      = (d.year * 12 + ((d.month : Int) - 1) + (n : Int)) / 12 := rfl
  have hm : (addMonths d n).month
      = ((d.year * 12 + ((d.month : Int) - 1) + (n : Int)) % 12).toNat + 1 := rfl
  have hd : (addMonths d n).day
      = min d.day (daysInMonth (addMonths d n).year (addMonths d n).month) := rfl
  refine ⟨?_, ?_, ?_, hd⟩ <;> omega

/-! ### C1: the three-way classification of getPaymentStatus -/

/-- C1: `getPaymentStatus` returns exactly one of three states determined by
the signed day difference `d` from today to the next due date: overdue iff
`d < 0`, due soon iff `0 ≤ d ≤ w`, current iff `d > w`; in particular with
the default window 3, five days early is current, one day early is due
soon, and one day late is overdue. -/
theorem getPaymentStatus_classification (member : Member)
    (payments : List Payment) (today : Date) (w : Int) (hw : 0 ≤ w) :
    (differenceInDays (getNextDueDate member (getLastPaymentDate payments))
        today < 0 ↔
      getPaymentStatus member payments today w = PayStatus.overdue) ∧
    ((0 ≤ differenceInDays (getNextDueDate member (getLastPaymentDate payments))
          today ∧
      differenceInDays (getNextDueDate member (getLastPaymentDate payments))
          today ≤ w) ↔
      getPaymentStatus member payments today w = PayStatus.due_soon) ∧
    (w < differenceInDays (getNextDueDate member (getLastPaymentDate payments))
        today ↔
      getPaymentStatus member payments today w = PayStatus.current) ∧
    (toDays today
        = toDays (getNextDueDate member (getLastPaymentDate payments)) - 5 →
      getPaymentStatus member payments today 3 = PayStatus.current) ∧
    (toDays today
        = toDays (getNextDueDate member (getLastPaymentDate payments)) - 1 →
      getPaymentStatus member payments today 3 = PayStatus.due_soon) ∧
    (toDays today
        = toDays (getNextDueDate member (getLastPaymentDate payments)) + 1 →
      getPaymentStatus member payments today 3 = PayStatus.overdue) := by
  have hgen : ∀ (v : Int), getPaymentStatus member payments today v =
      (if differenceInDays (getNextDueDate member (getLastPaymentDate payments))
            today < 0
        then PayStatus.overdue
        else if differenceInDays
            (getNextDueDate member (getLastPaymentDate payments)) today ≤ v
        then PayStatus.due_soon
        else PayStatus.current) := fun v => rfl
  refine ⟨?_, ?_, ?_, ?_, ?_, ?_⟩
  · rw [hgen]
    simp only [differenceInDays]
    split_ifs with h1 h2 <;> simp <;> omega
  · rw [hgen]
    simp only [differenceInDays]
    split_ifs with h1 h2 <;> simp <;> omega
  · rw [hgen]
    simp only [differenceInDays]
    split_ifs with h1 h2 <;> simp <;> omega
  · intro h
    rw [hgen]
    simp only [differenceInDays]
    split_ifs with h1 h2 <;> first | rfl | (exfalso; omega)
  · intro h
    rw [hgen]
    simp only [differenceInDays]
    split_ifs with h1 h2 <;> first | rfl | (exfalso; omega)
  · intro h
    rw [hgen]
    simp only [differenceInDays]
    split_ifs with h1 h2 <;> first | rfl | (exfalso; omega)

/-- Witness for C1: a monthly member anchored 2024-01-31 with no payments
is due 2024-02-29; five days before that date the classification is
current. -/
theorem getPaymentStatus_classification_witness :
    getPaymentStatus mMonthly1200 [] ⟨2024, 2, 24⟩ 3 = PayStatus.current :=
  (getPaymentStatus_classification mMonthly1200 [] ⟨2024, 2, 24⟩ 3
    (by decide)).2.2.2.1 (by decide)

/-! ### C9: month-end overflow clamps -/

/-- C9: for the month-based frequencies the target month of
`getNextDueDate` advances by exactly the interval (one, three or six
months — never further, so Jan 31 + 1 month stays in February), and a day
of month exceeding the length of the target month is clamped to the last
day of that month while a fitting day is kept unchanged. -/
theorem getNextDueDate_month_end_clamps (member : Member) (anchor : Date)
    (h1 : 1 ≤ anchor.month) (h2 : anchor.month ≤ 12) (n : Nat)
    (hm : (member.payment_frequency = "monthly" ∧ n = 1) ∨
          (member.payment_frequency = "three_months" ∧ n = 3) ∨
          (member.payment_frequency = "six_months" ∧ n = 6)) :
    (getNextDueDate member (some anchor)).year * 12
        + ((getNextDueDate member (some anchor)).month : Int)
      = anchor.year * 12 + (anchor.month : Int) + (n : Int) ∧
    1 ≤ (getNextDueDate member (some anchor)).month ∧
    (getNextDueDate member (some anchor)).month ≤ 12 ∧
    (daysInMonth (getNextDueDate member (some anchor)).year
        (getNextDueDate member (some anchor)).month < anchor.day →
      (getNextDueDate member (some anchor)).day
        = daysInMonth (getNextDueDate member (some anchor)).year
            (getNextDueDate member (some anchor)).month) ∧
    (anchor.day ≤ daysInMonth (getNextDueDate member (some anchor)).year
        (getNextDueDate member (some anchor)).month →
      (getNextDueDate member (some anchor)).day = anchor.day) := by
  have e : getNextDueDate member (some anchor) = addMonths anchor n := by
    rcases hm with ⟨hf, rfl⟩ | ⟨hf, rfl⟩ | ⟨hf, rfl⟩ <;>
      simp [getNextDueDate, hf]
  rw [e]
  obtain ⟨e1, e2, e3, e4⟩ := addMonths_spec anchor n h1 h2
  exact ⟨e1, e2, e3, fun h => by omega, fun h => by omega⟩

/-- Witness for C9: a monthly member anchored 2025-01-31 overflows
February and is clamped to its last day. -/
theorem getNextDueDate_month_end_clamps_witness :
    (getNextDueDate mMonthly1200 (some ⟨2025, 1, 31⟩)).day
      = daysInMonth (getNextDueDate mMonthly1200 (some ⟨2025, 1, 31⟩)).year
          (getNextDueDate mMonthly1200 (some ⟨2025, 1, 31⟩)).month := by
  have h := getNextDueDate_month_end_clamps mMonthly1200 ⟨2025, 1, 31⟩
    (by decide) (by decide) 1 (Or.inl ⟨rfl, rfl⟩)
  exact h.2.2.2.1 (by decide)

/-! ### C6: yearly frequency -/

/-- Counterexample for C6 as stated: a yearly member whose anchor is
2024-02-29 gets next due date 2025-02-28, so the anchor's day of month is
not preserved. -/
theorem getNextDueDate_yearly_day_not_preserved :
    getNextDueDate mYearly600 (some ⟨2024, 2, 29⟩) = ⟨2025, 2, 28⟩ ∧
    mYearly600.payment_frequency = "yearly" ∧
    (getNextDueDate mYearly600 (some ⟨2024, 2, 29⟩)).day ≠ 29 := by
  refine ⟨?_, ?_, ?_⟩ <;> decide

/-- C6 (amended): for a yearly member the next due date is the anchor plus
one year with the month preserved, and the day preserved except that it is
clamped to the length of the same month one year later (so a Feb 29 anchor
yields Feb 28 of a non-leap year); the anchor is the supplied last-paid
date, with `none` falling back to the member's start date. -/
theorem getNextDueDate_yearly_amended (member : Member) (anchor : Date)
    (hf : member.payment_frequency = "yearly")
    (h1 : 1 ≤ anchor.month) (h2 : anchor.month ≤ 12) :
    (getNextDueDate member (some anchor)).year = anchor.year + 1 ∧
    (getNextDueDate member (some anchor)).month = anchor.month ∧
    (getNextDueDate member (some anchor)).day
      = min anchor.day (daysInMonth (anchor.year + 1) anchor.month) ∧
    getNextDueDate member none
      = getNextDueDate member (some member.payment_start_date) := by
  have e : getNextDueDate member (some anchor) = addMonths anchor 12 := by
    simp [getNextDueDate, hf, addYears]
  obtain ⟨e1, e2, e3, e4⟩ := addMonths_spec anchor 12 h1 h2
  rw [e] at *
  have hy : (addMonths anchor 12).year = anchor.year + 1 := by omega
  have hmo : (addMonths anchor 12).month = anchor.month := by omega
  refine ⟨hy, hmo, ?_, rfl⟩
  rw [e4, hy, hmo]

/-- Witness for the amended C6: the Feb 29 2024 anchor maps to month 2 with
the day clamped to 28. -/
theorem getNextDueDate_yearly_amended_witness :
    (getNextDueDate mYearly600 (some ⟨2024, 2, 29⟩)).month = 2 ∧
    (getNextDueDate mYearly600 (some ⟨2024, 2, 29⟩)).day = 28 := by
  have h := getNextDueDate_yearly_amended mYearly600 ⟨2024, 2, 29⟩ rfl
    (by decide) (by decide)
  refine ⟨h.2.1, ?_⟩
  rw [h.2.2.1]
  decide

/-! ### C3: the last paid payment date -/

/-- The comparator of `getLastPaymentDate` is transitive. -/
theorem laterFirst_trans : ∀ (a b c : Payment),
    laterFirst a b → laterFirst b c → laterFirst a c := by
  intro a b c hab hbc
  simp only [laterFirst, decide_eq_true_eq] at *
  omega

/-- The comparator of `getLastPaymentDate` is total. -/
theorem laterFirst_total : ∀ (a b : Payment),
    laterFirst a b || laterFirst b a := by
  intro a b
  simp only [laterFirst, Bool.or_eq_true, decide_eq_true_eq]
  omega

/-- C3: `getLastPaymentDate` only considers payments with status paid —
when there is none the result is `none`; when some payment is paid the
result is a `some`; and any returned date is the payment date of some paid
payment in the list whose date is at least as recent as that of every paid
payment. -/
theorem getLastPaymentDate_spec (payments : List Payment) :
    ((∀ p ∈ payments, p.status ≠ "paid") →
      getLastPaymentDate payments = none) ∧
    (∀ d, getLastPaymentDate payments = some d →
      (∃ p ∈ payments, p.status = "paid" ∧ p.payment_date = d) ∧
      (∀ q ∈ payments, q.status = "paid" →
        toDays q.payment_date ≤ toDays d)) ∧
    (∀ p ∈ payments, p.status = "paid" →
      ∃ d, getLastPaymentDate payments = some d) := by
  refine ⟨?_, ?_, ?_⟩
  · intro hno
    unfold getLastPaymentDate
    split
    · rfl
    · have hfil : payments.filter (fun p => p.status == "paid") = [] := by
        rw [List.filter_eq_nil_iff]
        intro p hp
        simpa using hno p hp
      rw [hfil]
      simp
  · intro d hd
    unfold getLastPaymentDate at hd
    by_cases hlen : payments.length = 0
    · rw [if_pos hlen] at hd
      exact absurd hd (by simp)
    · rw [if_neg hlen] at hd
      rcases hcons :
          (payments.filter (fun p => p.status == "paid")).mergeSort laterFirst
        with - | ⟨p, rest⟩
      · rw [hcons] at hd
        exact absurd hd (by simp)
      · rw [hcons] at hd
        replace hd : p.payment_date = d := by
          simpa using hd
        have hpsorted :
            p ∈ (payments.filter (fun q => q.status == "paid")).mergeSort
              laterFirst := by
          rw [hcons]
          exact List.mem_cons_self p rest
        have hpmem : p ∈ payments.filter (fun q => q.status == "paid") :=
          List.mem_mergeSort.mp hpsorted
        have hpm := List.mem_filter.mp hpmem
        constructor
        · exact ⟨p, hpm.1, by simpa using hpm.2, hd⟩
        · intro q hq hqpaid
          have hqfil : q ∈ payments.filter (fun r => r.status == "paid") :=
            List.mem_filter.mpr ⟨hq, by simp [hqpaid]⟩
          have hqsorted :
              q ∈ (payments.filter (fun r => r.status == "paid")).mergeSort
                laterFirst := List.mem_mergeSort.mpr hqfil
          rw [hcons] at hqsorted
          rcases List.mem_cons.mp hqsorted with rfl | hqrest
          · rw [hd]
          · have hsorted := List.sorted_mergeSort laterFirst_trans
              laterFirst_total (payments.filter (fun r => r.status == "paid"))
            rw [hcons] at hsorted
            have hrel := (List.pairwise_cons.mp hsorted).1 q hqrest
            simp only [laterFirst, decide_eq_true_eq] at hrel
            rw [← hd]
            exact hrel
  · intro p hp hpaid
    have hlen : payments.length ≠ 0 := by
      intro h0
      rw [List.length_eq_zero] at h0
      subst h0
      simp at hp
    have hpfil : p ∈ payments.filter (fun q => q.status == "paid") :=
      List.mem_filter.mpr ⟨hp, by simp [hpaid]⟩
    have hmem :
        p ∈ (payments.filter (fun q => q.status == "paid")).mergeSort
          laterFirst := List.mem_mergeSort.mpr hpfil
    rcases hcons :
        (payments.filter (fun q => q.status == "paid")).mergeSort laterFirst
      with - | ⟨q, rest⟩
    · rw [hcons] at hmem
      simp at hmem
    · refine ⟨q.payment_date, ?_⟩
      unfold getLastPaymentDate
      rw [if_neg hlen]
      simp only [hcons]
      rfl

/-- Witness for C3: among one unpaid (latest-dated) and two paid payments
the paid payment forces a `some` result, which is the most recent paid
date, 2024-03-05, and bounds every paid payment. -/
theorem getLastPaymentDate_spec_witness :
    getLastPaymentDate [pPaidJan, pPaidMar, pUnpaidApr]
      = some ⟨2024, 3, 5⟩ ∧
    (∃ d, getLastPaymentDate [pPaidJan, pPaidMar, pUnpaidApr] = some d) ∧
    (∃ p ∈ [pPaidJan, pPaidMar, pUnpaidApr],
      p.status = "paid" ∧ p.payment_date = ⟨2024, 3, 5⟩) ∧
    (∀ q ∈ [pPaidJan, pPaidMar, pUnpaidApr], q.status = "paid" →
      toDays q.payment_date ≤ toDays (⟨2024, 3, 5⟩ : Date)) := by
  have heval : getLastPaymentDate [pPaidJan, pPaidMar, pUnpaidApr]
      = some ⟨2024, 3, 5⟩ := by
    simp [getLastPaymentDate, List.mergeSort, pPaidJan, pPaidMar, pUnpaidApr,
      laterFirst, List.merge, toDays]
  have h := (getLastPaymentDate_spec [pPaidJan, pPaidMar, pUnpaidApr]).2.1
    ⟨2024, 3, 5⟩ heval
  have hsome := (getLastPaymentDate_spec [pPaidJan, pPaidMar, pUnpaidApr]).2.2
    pPaidMar (by simp) rfl
  exact ⟨heval, hsome, h.1, h.2⟩

/-! ### C4: monthly collected income -/

/-- Structure eta for calendar dates. -/
theorem Date.eta (d : Date) : d = ⟨d.year, d.month, d.day⟩ := rfl

/-- Within one month, `toDays` is day 1 plus the day offset. -/
theorem toDays_day_diff (y : Int) (m : Nat) (d1 d2 : Nat) :
    toDays ⟨y, m, d1⟩ - toDays ⟨y, m, d2⟩ = (d1 : Int) - (d2 : Int) := by
  simp only [toDays]
  ring

/-- The day after the last day of a month is the first day of the next
month. -/
theorem toDays_month_boundary (y : Int) (m : Nat) (h1 : 1 ≤ m)
    (h2 : m ≤ 12) :
    toDays (if m = 12 then (⟨y + 1, 1, 1⟩ : Date) else ⟨y, m + 1, 1⟩)
      = toDays ⟨y, m, daysInMonth y m⟩ + 1 := by
  interval_cases m <;>
    simp only [toDays, daysInMonth, isLeapYear] <;>
    norm_num <;>
    omega

/-- A valid day of the month immediately before month `(ty, tm)` is never
strictly after the first day of `(ty, tm)`. -/
theorem not_between_of_prev_month (ty py : Int) (tm pm pd : Nat)
    (hpd2 : pd ≤ daysInMonth py pm)
    (hprev : (tm = 1 ∧ py = ty - 1 ∧ pm = 12) ∨
             (2 ≤ tm ∧ tm ≤ 12 ∧ py = ty ∧ pm = tm - 1)) :
    ¬ (toDays ⟨ty, tm, 1⟩ < toDays ⟨py, pm, pd⟩) := by
  rcases hprev with ⟨h12, rfl, rfl⟩ | ⟨htm2, htm12, rfl, rfl⟩
  · subst h12
    have hb := toDays_month_boundary (ty - 1) 12 (by omega) (by omega)
    rw [if_pos rfl] at hb
    rw [show ty - 1 + 1 = ty from by ring] at hb
    have hd := toDays_day_diff (ty - 1) 12 pd (daysInMonth (ty - 1) 12)
    omega
  · have hb := toDays_month_boundary py (tm - 1) (by omega) (by omega)
    rw [if_neg (by omega)] at hb
    rw [show tm - 1 + 1 = tm from by omega] at hb
    have hd := toDays_day_diff py (tm - 1) pd (daysInMonth py (tm - 1))
    omega

/-- A valid day of the month immediately after month `(ty, tm)` is never
strictly before the last day of `(ty, tm)`. -/
theorem not_between_of_next_month (ty py : Int) (tm pm pd : Nat)
    (h1 : 1 ≤ tm) (h2 : tm ≤ 12) (hpd1 : 1 ≤ pd)
    (hnext : (tm = 12 ∧ py = ty + 1 ∧ pm = 1) ∨
             (tm ≤ 11 ∧ py = ty ∧ pm = tm + 1)) :
    ¬ (toDays ⟨py, pm, pd⟩ < toDays ⟨ty, tm, daysInMonth ty tm⟩) := by
  have hb := toDays_month_boundary ty tm h1 h2
  rcases hnext with ⟨h12, rfl, rfl⟩ | ⟨hle, rfl, rfl⟩
  · subst h12
    rw [if_pos rfl] at hb
    have hd := toDays_day_diff (ty + 1) 1 pd 1
    omega
  · rw [if_neg (by omega)] at hb
    have hd := toDays_day_diff py (tm + 1) pd 1
    omega

/-- C4: `getMonthlyCollected` sums the amounts of exactly the payments
passing the paid-and-strictly-inside-the-month filter; a paid payment
dated strictly inside the target month (after day 1 and before the last
day) is counted, a payment dated on the boundary days is excluded (the
boundary instants of the open interval), and a payment dated in an
adjacent month is always excluded. -/
theorem getMonthlyCollected_spec (payments : List Payment) (target : Date)
    (h1 : 1 ≤ target.month) (h2 : target.month ≤ 12) :
    getMonthlyCollected payments target
      = ((payments.filter (fun p => collectedInMonth p target)).map
          (fun p => p.amount)).sum ∧
    (∀ p ∈ payments,
      (collectedInMonth p target = true ↔
        (p.status = "paid" ∧
         toDays (startOfMonth target) < toDays p.payment_date ∧
         toDays p.payment_date < toDays (endOfMonth target)))) ∧
    (∀ p ∈ payments, p.status = "paid" →
      p.payment_date.year = target.year →
      p.payment_date.month = target.month →
      1 < p.payment_date.day →
      p.payment_date.day < daysInMonth target.year target.month →
      collectedInMonth p target = true) ∧
    (∀ p ∈ payments,
      p.payment_date.year = target.year →
      p.payment_date.month = target.month →
      (p.payment_date.day = 1 ∨
       p.payment_date.day = daysInMonth target.year target.month) →
      collectedInMonth p target = false) ∧
    (∀ p ∈ payments, p.payment_date.Valid →
      (inMonth p.payment_date (prevMonthOf target) ∨
       inMonth p.payment_date (nextMonthOf target)) →
      collectedInMonth p target = false) := by
  have hchar : ∀ p : Payment, collectedInMonth p target = true ↔
      (p.status = "paid" ∧
       toDays (startOfMonth target) < toDays p.payment_date ∧
       toDays p.payment_date < toDays (endOfMonth target)) := by
    intro p
    simp [collectedInMonth, isAfter, isBefore, and_assoc]
  refine ⟨?_, fun p _ => hchar p, ?_, ?_, ?_⟩
  · unfold getMonthlyCollected
    rw [foldl_add_eq, zero_add]
  · intro p hp hpaid hy hm hd1 hd2
    have he : p.payment_date
        = ⟨target.year, target.month, p.payment_date.day⟩ := by
      rw [Date.eta p.payment_date, hy, hm]
    refine (hchar p).mpr ⟨hpaid, ?_, ?_⟩
    · have hd := toDays_day_diff target.year target.month p.payment_date.day 1
      rw [he]
      unfold startOfMonth
      omega
    · have hd := toDays_day_diff target.year target.month p.payment_date.day
        (daysInMonth target.year target.month)
      rw [he]
      unfold endOfMonth
      omega
  · intro p hp hy hm hday
    rw [← Bool.not_eq_true, hchar p]
    rintro ⟨-, hlt1, hlt2⟩
    have he : p.payment_date
        = ⟨target.year, target.month, p.payment_date.day⟩ := by
      rw [Date.eta p.payment_date, hy, hm]
    rw [he] at hlt1 hlt2
    unfold startOfMonth at hlt1
    unfold endOfMonth at hlt2
    have hda := toDays_day_diff target.year target.month p.payment_date.day 1
    have hdb := toDays_day_diff target.year target.month p.payment_date.day
      (daysInMonth target.year target.month)
    rcases hday with h | h <;> omega
  · intro p hp hv hadj
    rw [← Bool.not_eq_true, hchar p]
    rintro ⟨-, hlt1, hlt2⟩
    obtain ⟨hv1, hv2, hv3, hv4⟩ := hv
    rcases hadj with ⟨hy, hm⟩ | ⟨hy, hm⟩
    · by_cases h12 : target.month = 1
      · simp only [prevMonthOf, h12, if_pos rfl] at hy hm
        refine not_between_of_prev_month target.year p.payment_date.year
          target.month p.payment_date.month p.payment_date.day
          hv4 (Or.inl ⟨h12, hy, hm⟩) ?_
        exact hlt1
      · simp only [prevMonthOf, if_neg h12] at hy hm
        refine not_between_of_prev_month target.year p.payment_date.year
          target.month p.payment_date.month p.payment_date.day
          hv4 (Or.inr ⟨by omega, h2, hy, hm⟩) ?_
        exact hlt1
    · by_cases h12 : target.month = 12
      · simp only [nextMonthOf, h12, if_pos rfl] at hy hm
        refine not_between_of_next_month target.year p.payment_date.year
          target.month p.payment_date.month p.payment_date.day
          h1 h2 hv3 (Or.inl ⟨h12, hy, hm⟩) ?_
        exact hlt2
      · simp only [nextMonthOf, if_neg h12] at hy hm
        refine not_between_of_next_month target.year p.payment_date.year
          target.month p.payment_date.month p.payment_date.day
          h1 h2 hv3 (Or.inr ⟨by omega, hy, hm⟩) ?_
        exact hlt2

/-- Witness for C4: for target month March 2024, the paid mid-March payment
(150) is counted, the paid February payment is excluded, and the total is
150. -/
theorem getMonthlyCollected_spec_witness :
    getMonthlyCollected [pPaidJan, pPaidFeb, pPaidMar, pUnpaidApr]
      ⟨2024, 3, 15⟩ = 150 ∧
    collectedInMonth pPaidMar ⟨2024, 3, 15⟩ = true ∧
    collectedInMonth pPaidFeb ⟨2024, 3, 15⟩ = false := by
  have h := getMonthlyCollected_spec [pPaidJan, pPaidFeb, pPaidMar, pUnpaidApr]
    ⟨2024, 3, 15⟩ (by decide) (by decide)
  refine ⟨?_, ?_, ?_⟩
  · rw [h.1]
    simp [collectedInMonth, isAfter, isBefore, startOfMonth, endOfMonth,
      daysInMonth, isLeapYear, toDays, pPaidJan, pPaidFeb, pPaidMar,
      pUnpaidApr]
  · exact h.2.2.1 pPaidMar (by simp) rfl rfl rfl (by decide) (by decide)
  · exact h.2.2.2.2 pPaidFeb (by simp) (by decide) (Or.inl ⟨rfl, rfl⟩)

end DonorHub
